import Mathlib

/-!
Verification of the static-asset edge worker (`workers-site`): the URL
classifier `getProperties`, the cache-policy table `setCachePolicy`, and the
request orchestration `handleEvent`.  JavaScript strings are modelled as
`List Char`; `String.prototype.lastIndexOf` returns `Option Nat` in place of
the JavaScript `-1` sentinel; the mutable `Headers` object is modelled as an
association list with a `set` operation; the asynchronous, fallible
`getAssetFromKV` collaborator is modelled as a function from URL strings to
`Except JsError Asset`.
-/

namespace Workers

/-- JavaScript `s.lastIndexOf(c)`: index of the last occurrence of the
character `c` in `s`, `none` in place of `-1` when absent. -/
def lastIndexOf (c : Char) : List Char → Option Nat
  | [] => none
  | x :: xs =>
    match lastIndexOf c xs with
    | some i => some (i + 1)
    | none => if x = c then some 0 else none

/-- JavaScript `s.endsWith(c)` for a one-character suffix. -/
def endsWith (l : List Char) (c : Char) : Bool :=
  match l.getLast? with
  | some x => x == c
  | none => false

/-- Spec-side helper: the substring from the last occurrence of `c` to the end
of the string, inclusive of `c`; empty when `c` does not occur. -/
def suffixFromLast (c : Char) : List Char → List Char
  | [] => []
  | x :: xs =>
    if c ∈ xs then suffixFromLast c xs
    else if x = c then x :: xs
    else []

/-- The classification record computed by `getProperties`. -/
structure UrlClassification where
  isFile : Bool
  fileExtension : List Char
  missingSlash : Bool
  atRoot : Bool
  deriving Repr, DecidableEq

/-- `getProperties(url_string)` from `workers-site` (part_000, lines 39-78):
trailing slash means not a file; otherwise locate the last `/`, take the
filename suffix, and look for the last `.` inside it. -/
def getProperties (url : List Char) : UrlClassification :=
  if endsWith url '/' then
    { isFile := false, fileExtension := [], missingSlash := false, atRoot := false }
  else
    match lastIndexOf '/' url with
    | none =>
      { isFile := false, fileExtension := [], missingSlash := false, atRoot := true }
    | some nameStartIndex =>
      let filename := url.drop nameStartIndex
      match lastIndexOf '.' filename with
      | none =>
        { isFile := false, fileExtension := [], missingSlash := true, atRoot := false }
      | some extStartIndex =>
        { isFile := true, fileExtension := filename.drop extStartIndex,
          missingSlash := false, atRoot := false }

/-- Header map: association list of name/value pairs. -/
abbrev Headers := List (String × String)

/-- JavaScript `headers.set(name, value)`: replace any existing entry for
`name` with `value` (a set name occurs at most once afterwards). -/
def headersSet (hs : Headers) (n v : String) : Headers :=
  hs.filter (fun p => p.1 != n) ++ [(n, v)]

/-- JavaScript `headers.get(name)`: value of the first entry named `name`. -/
def headersGet (hs : Headers) (n : String) : Option String :=
  (hs.find? (fun p => p.1 == n)).map (fun p => p.2)

/-- `setCachePolicy(headers, extension)` (part_000, lines 27-37): extensions
cached for 1 year (fingerprinted assets). -/
def longTermCache : List (List Char) :=
  [".css".toList, ".ttf".toList, ".woff".toList, ".woff2".toList, ".js".toList,
   ".png".toList, ".jpg".toList, ".jpeg".toList, ".webp".toList, ".svg".toList]

/-- Extensions cached for 1 week (not fingerprinted). -/
def shortTermCache : List (List Char) :=
  [".ico".toList, ".json".toList]

/-- `setCachePolicy(headers, extension)`: membership in the long-term table
sets a 1-year directive, else membership in the short-term table sets a 1-week
directive, else the headers are untouched. -/
def setCachePolicy (headers : Headers) (extension : List Char) : Headers :=
  if extension ∈ longTermCache then
    headersSet headers "Cache-Control" "max-age=31536000, public"
  else if extension ∈ shortTermCache then
    headersSet headers "Cache-Control" "max-age=604800, public"
  else
    headers

/-- A JavaScript error value: an optional `message` string and the result of
`toString()`. -/
structure JsError where
  message : Option String
  toStr : String
  deriving Repr, DecidableEq

/-- JavaScript `e.message || e.toString()`: the message unless it is absent or
empty (falsy), in which case the string form. -/
def errText (e : JsError) : String :=
  match e.message with
  | some m => if m = "" then e.toStr else m
  | none => e.toStr

/-- An asset returned by `getAssetFromKV`: response metadata and body. -/
structure Asset where
  status : Nat
  headers : Headers
  body : String
  deriving DecidableEq

/-- A response produced by the handler. -/
structure Resp where
  status : Nat
  headers : Headers
  body : String
  deriving DecidableEq

/-- The handler either short-circuits with a redirect or produces a response. -/
inductive HandlerResult where
  | redirect (location : List Char) (status : Nat)
  | response (r : Resp)
  deriving DecidableEq

/-- The asset store: `getAssetFromKV` resolved as a fixed function from the
request URL to an asset or a failure. -/
def AssetStore := List Char → Except JsError Asset

/-- The five fixed security headers set on the success path
(part_000, lines 110-114), in program order. -/
def setSecurityHeaders (hs : Headers) : Headers :=
  headersSet (headersSet (headersSet (headersSet (headersSet hs
    "X-XSS-Protection" "1; mode=block")
    "X-Content-Type-Options" "nosniff")
    "X-Frame-Options" "DENY")
    "Referrer-Policy" "unsafe-url")
    "Feature-Policy" "none"

/-- The URL of the fallback fetch: `new URL(req.url).origin + "/404.html"`,
with origin extraction supplied by the platform as `origin`. -/
def notFoundUrl (origin : List Char → List Char) (url : List Char) : List Char :=
  origin url ++ "/404.html".toList

/-- The `try`/`catch` body of `handleEvent` (part_000, lines 98-135): primary
fetch, security headers and cache policy on success; on failure one fallback
fetch of `/404.html` returned with status 404, else a 500 carrying the primary
error's text. -/
def fetchAndRespond (store : AssetStore) (origin : List Char → List Char)
    (url : List Char) (properties : UrlClassification) : Resp :=
  match store url with
  | Except.ok page =>
    let h0 := setSecurityHeaders page.headers
    let h1 := if properties.isFile then setCachePolicy h0 properties.fileExtension else h0
    { status := page.status, headers := h1, body := page.body }
  | Except.error e =>
    match store (notFoundUrl origin url) with
    | Except.ok nf => { status := 404, headers := nf.headers, body := nf.body }
    | Except.error _ => { status := 500, headers := [], body := errText e }

/-- `handleEvent` (part_000, lines 80-136): classify the URL, redirect with
301 when a slash is missing, otherwise fetch and respond. -/
def handleEvent (store : AssetStore) (origin : List Char → List Char)
    (url : List Char) : HandlerResult :=
  let properties := getProperties url
  if properties.missingSlash then
    HandlerResult.redirect (url ++ ['/']) 301
  else
    HandlerResult.response (fetchAndRespond store origin url properties)

/-! ### Basic lemmas about `lastIndexOf` and `suffixFromLast` -/

theorem lastIndexOf_eq_none_iff {c : Char} {l : List Char} :
    lastIndexOf c l = none ↔ c ∉ l := by
  induction l with
  | nil => simp [lastIndexOf]
  | cons x xs ih =>
    simp only [lastIndexOf]
    cases h : lastIndexOf c xs with
    | some i =>
      rw [h] at ih
      have hc : c ∈ xs := by
        by_contra hn
        exact Option.noConfusion (ih.mpr hn)
      simp [List.mem_cons, hc]
    | none =>
      rw [h] at ih
      have hn : c ∉ xs := ih.mp rfl
      by_cases hx : x = c
      · simp [hx, List.mem_cons]
      · have hcx : ¬c = x := fun hh => hx hh.symm
        simp [hx, List.mem_cons, hn, hcx]

theorem lastIndexOf_lt_length {c : Char} {l : List Char} {i : Nat}
    (h : lastIndexOf c l = some i) : i < l.length := by
  induction l generalizing i with
  | nil => simp [lastIndexOf] at h
  | cons x xs ih =>
    simp only [lastIndexOf] at h
    cases hx : lastIndexOf c xs with
    | some j =>
      rw [hx] at h
      cases h
      simpa using Nat.succ_lt_succ (ih hx)
    | none =>
      rw [hx] at h
      by_cases hxc : x = c
      · rw [if_pos hxc] at h
        cases h
        simp
      · simp [hxc] at h

theorem suffixFromLast_of_not_mem {c : Char} {l : List Char} (h : c ∉ l) :
    suffixFromLast c l = [] := by
  induction l with
  | nil => rfl
  | cons x xs ih =>
    simp only [List.mem_cons, not_or] at h
    have hx : ¬x = c := fun hh => h.1 hh.symm
    simp [suffixFromLast, h.2, hx, ih h.2]

theorem suffixFromLast_eq_drop {c : Char} {l : List Char} {i : Nat}
    (h : lastIndexOf c l = some i) : suffixFromLast c l = l.drop i := by
  induction l generalizing i with
  | nil => simp [lastIndexOf] at h
  | cons x xs ih =>
    simp only [lastIndexOf] at h
    cases hx : lastIndexOf c xs with
    | some j =>
      rw [hx] at h
      cases h
      have hmem : c ∈ xs := by
        by_contra hn
        rw [lastIndexOf_eq_none_iff.mpr hn] at hx
        exact Option.noConfusion hx
      simp [suffixFromLast, hmem, ih hx]
    | none =>
      rw [hx] at h
      have hnm : c ∉ xs := lastIndexOf_eq_none_iff.mp hx
      by_cases hxc : x = c
      · simp [hxc] at h
        subst h
        simp [suffixFromLast, hnm, hxc]
      · simp [hxc] at h

theorem mem_of_lastIndexOf_some {c : Char} {l : List Char}
    (h : lastIndexOf c l ≠ none) : c ∈ l := by
  by_contra hn
  exact h (lastIndexOf_eq_none_iff.mpr hn)

theorem lastIndexOf_isSome_of_mem {c : Char} {l : List Char} (h : c ∈ l) :
    ∃ i, lastIndexOf c l = some i := by
  cases hx : lastIndexOf c l with
  | none => exact absurd (lastIndexOf_eq_none_iff.mp hx) (by simpa using h)
  | some i => exact ⟨i, rfl⟩

theorem lastIndexOf_cons_of_some {c x : Char} {xs : List Char} {i : Nat}
    (h : lastIndexOf c xs = some i) : lastIndexOf c (x :: xs) = some (i + 1) := by
  simp [lastIndexOf, h]

theorem lastIndexOf_of_getLast {c : Char} {l : List Char}
    (h : l.getLast? = some c) : lastIndexOf c l = some (l.length - 1) := by
  induction l with
  | nil => simp at h
  | cons x xs ih =>
    cases xs with
    | nil =>
      simp only [List.getLast?_singleton, Option.some.injEq] at h
      subst h
      simp [lastIndexOf]
    | cons y ys =>
      have h2 : (y :: ys).getLast? = some c := by
        rw [← h]
        rfl
      have hy := ih h2
      rw [lastIndexOf_cons_of_some hy]
      simp only [List.length_cons]
      congr 1

/-! ### Lemmas about the header map -/

theorem find?_filter_of_imp {α} (l : List α) (p q : α → Bool)
    (h : ∀ a, p a = true → q a = true) :
    (l.filter q).find? p = l.find? p := by
  induction l with
  | nil => rfl
  | cons x xs ih =>
    by_cases hx : p x
    · rw [List.filter_cons, if_pos (h x hx), List.find?_cons_of_pos _ hx,
        List.find?_cons_of_pos _ hx]
    · by_cases hq : q x
      · rw [List.filter_cons, if_pos hq, List.find?_cons_of_neg _ hx,
          List.find?_cons_of_neg _ hx, ih]
      · rw [List.filter_cons, if_neg hq, List.find?_cons_of_neg _ hx, ih]

theorem headersGet_headersSet (hs : Headers) (n v n' : String) :
    headersGet (headersSet hs n v) n' =
      if n' = n then some v else headersGet hs n' := by
  unfold headersGet headersSet
  rw [List.find?_append]
  by_cases h : n' = n
  · subst h
    have hnone : (hs.filter (fun p => p.1 != n')).find? (fun p => p.1 == n') = none := by
      rw [List.find?_eq_none]
      intro x hx
      have hne := (List.mem_filter.mp hx).2
      simp only [bne_iff_ne, ne_eq] at hne
      simp [hne]
    simp [hnone]
  · have hfil : (hs.filter (fun p => p.1 != n)).find? (fun p => p.1 == n') =
        hs.find? (fun p => p.1 == n') := by
      apply find?_filter_of_imp
      intro a ha
      have ha' : a.1 = n' := by simpa using ha
      simp [ha', h]
    have hsingle : ([(n, v)] : Headers).find? (fun p => p.1 == n') = none := by
      have hb : (n == n') = false := by
        simp only [beq_eq_false_iff_ne, ne_eq]
        exact fun hh => h hh.symm
      simp [List.find?, hb]
    rw [hfil, hsingle, if_neg h]
    cases hs.find? (fun p => p.1 == n') <;> rfl

theorem headersGet_setSecurityHeaders (hs : Headers) (n : String) :
    headersGet (setSecurityHeaders hs) n =
      if n = "Feature-Policy" then some "none"
      else if n = "Referrer-Policy" then some "unsafe-url"
      else if n = "X-Frame-Options" then some "DENY"
      else if n = "X-Content-Type-Options" then some "nosniff"
      else if n = "X-XSS-Protection" then some "1; mode=block"
      else headersGet hs n := by
  unfold setSecurityHeaders
  rw [headersGet_headersSet, headersGet_headersSet, headersGet_headersSet,
    headersGet_headersSet, headersGet_headersSet]

theorem headersGet_setCachePolicy_other (hs : Headers) (ext : List Char) {n : String}
    (h : n ≠ "Cache-Control") :
    headersGet (setCachePolicy hs ext) n = headersGet hs n := by
  unfold setCachePolicy
  split
  · rw [headersGet_headersSet, if_neg h]
  · split
    · rw [headersGet_headersSet, if_neg h]
    · rfl

theorem setCachePolicy_of_not_mem {hs : Headers} {ext : List Char}
    (h1 : ext ∉ longTermCache) (h2 : ext ∉ shortTermCache) :
    setCachePolicy hs ext = hs := by
  unfold setCachePolicy
  rw [if_neg h1, if_neg h2]

/-! ### Case lemmas for `getProperties` -/

theorem getProperties_of_endsWith {url : List Char} (h : endsWith url '/' = true) :
    getProperties url =
      { isFile := false, fileExtension := [], missingSlash := false, atRoot := false } := by
  simp [getProperties, h]

theorem getProperties_atRoot {url : List Char} (h1 : endsWith url '/' = false)
    (h2 : lastIndexOf '/' url = none) :
    getProperties url =
      { isFile := false, fileExtension := [], missingSlash := false, atRoot := true } := by
  simp [getProperties, h1, h2]

theorem getProperties_missingSlash {url : List Char} {i : Nat}
    (h1 : endsWith url '/' = false) (h2 : lastIndexOf '/' url = some i)
    (h3 : lastIndexOf '.' (url.drop i) = none) :
    getProperties url =
      { isFile := false, fileExtension := [], missingSlash := true, atRoot := false } := by
  simp [getProperties, h1, h2, h3]

theorem getProperties_isFile {url : List Char} {i j : Nat}
    (h1 : endsWith url '/' = false) (h2 : lastIndexOf '/' url = some i)
    (h3 : lastIndexOf '.' (url.drop i) = some j) :
    getProperties url =
      { isFile := true, fileExtension := (url.drop i).drop j,
        missingSlash := false, atRoot := false } := by
  simp [getProperties, h1, h2, h3]

theorem endsWith_iff {l : List Char} {c : Char} :
    endsWith l c = true ↔ l.getLast? = some c := by
  unfold endsWith
  cases h : l.getLast? with
  | none => simp
  | some x => simp [beq_iff_eq]

theorem drop_length_sub_one {l : List Char} {c : Char} (h : l.getLast? = some c) :
    l.drop (l.length - 1) = [c] := by
  induction l with
  | nil => simp at h
  | cons x xs ih =>
    cases xs with
    | nil =>
      simp only [List.getLast?_singleton, Option.some.injEq] at h
      subst h
      rfl
    | cons y ys =>
      have h2 : (y :: ys).getLast? = some c := by
        rw [← h]
        rfl
      have hd := ih h2
      have hlen : (x :: y :: ys).length - 1 = ((y :: ys).length - 1) + 1 := by
        simp [List.length_cons]
      rw [hlen, List.drop_succ_cons, hd]

/-! ### Claim theorems -/

/-- Claim C1: for every extension in the long-term set the cache policy sets
`Cache-Control` to exactly `max-age=31536000, public`, and for every extension
in the short-term set to exactly `max-age=604800, public`. -/
theorem cachePolicy_table_directives (hs : Headers) (ext : List Char) :
    (ext ∈ longTermCache →
      headersGet (setCachePolicy hs ext) "Cache-Control" =
        some "max-age=31536000, public") ∧
    (ext ∈ shortTermCache →
      headersGet (setCachePolicy hs ext) "Cache-Control" =
        some "max-age=604800, public") := by
  constructor
  · intro h
    unfold setCachePolicy
    rw [if_pos h, headersGet_headersSet, if_pos rfl]
  · intro h
    have hlong : ext ∉ longTermCache := by
      simp only [shortTermCache, List.mem_cons, List.not_mem_nil, or_false] at h
      rcases h with h | h <;> subst h <;> decide
    unfold setCachePolicy
    rw [if_neg hlong, if_pos h, headersGet_headersSet, if_pos rfl]

theorem cachePolicy_table_directives_witness :
    headersGet (setCachePolicy [] ".css".toList) "Cache-Control" =
        some "max-age=31536000, public" ∧
    headersGet (setCachePolicy [] ".ico".toList) "Cache-Control" =
        some "max-age=604800, public" :=
  ⟨(cachePolicy_table_directives [] ".css".toList).1 (by decide),
   (cachePolicy_table_directives [] ".ico".toList).2 (by decide)⟩

/-- Claim C7: for every input URL the classification satisfies the three invariants:
`isFile` implies a non-empty `fileExtension`; `missingSlash` and `isFile` never
hold simultaneously; `atRoot` implies neither `isFile` nor `missingSlash`. -/
theorem classification_invariants (url : List Char) :
    ((getProperties url).isFile = true → (getProperties url).fileExtension ≠ []) ∧
    ¬((getProperties url).missingSlash = true ∧ (getProperties url).isFile = true) ∧
    ((getProperties url).atRoot = true →
      (getProperties url).isFile = false ∧ (getProperties url).missingSlash = false) := by
  by_cases h1 : endsWith url '/'
  · rw [getProperties_of_endsWith h1]
    simp
  · have h1' : endsWith url '/' = false := by simpa using h1
    cases h2 : lastIndexOf '/' url with
    | none =>
      rw [getProperties_atRoot h1' h2]
      simp
    | some i =>
      cases h3 : lastIndexOf '.' (url.drop i) with
      | none =>
        rw [getProperties_missingSlash h1' h2 h3]
        simp
      | some j =>
        rw [getProperties_isFile h1' h2 h3]
        refine ⟨fun _ => ?_, by simp, by simp⟩
        have hj := lastIndexOf_lt_length h3
        intro hcon
        have hle := List.drop_eq_nil_iff.mp hcon
        omega

theorem classification_invariants_witness :
    (getProperties ("a/b.c".toList)).fileExtension ≠ [] :=
  (classification_invariants ("a/b.c".toList)).1 (by decide)

/-- Claim C8: every URL ending in `/` is classified neither as a file nor as missing
a slash, and every input string yields a classification. -/
theorem trailing_slash_classification (url : List Char) :
    (endsWith url '/' = true →
      (getProperties url).isFile = false ∧ (getProperties url).missingSlash = false) ∧
    ∃ c, getProperties url = c := by
  constructor
  · intro h
    rw [getProperties_of_endsWith h]
    exact ⟨rfl, rfl⟩
  · exact ⟨getProperties url, rfl⟩

theorem trailing_slash_classification_witness :
    (getProperties ("a/".toList)).isFile = false ∧
    (getProperties ("a/".toList)).missingSlash = false :=
  (trailing_slash_classification ("a/".toList)).1 (by decide)

/-- Claim C3: every URL whose final path segment (the substring from the last `/` to
the end) contains a `.` is classified `isFile = true` with `fileExtension`
equal to the substring from the last `.` of that segment to the end,
inclusive of the dot. -/
theorem file_extension_classification (url : List Char)
    (h : '.' ∈ suffixFromLast '/' url) :
    (getProperties url).isFile = true ∧
    (getProperties url).fileExtension = suffixFromLast '.' (suffixFromLast '/' url) := by
  have hslash : '/' ∈ url := by
    by_contra hn
    rw [suffixFromLast_of_not_mem hn] at h
    simp at h
  obtain ⟨i, hi⟩ := lastIndexOf_isSome_of_mem hslash
  have hseg : suffixFromLast '/' url = url.drop i := suffixFromLast_eq_drop hi
  have h1 : endsWith url '/' = false := by
    by_contra hb
    have hb' : endsWith url '/' = true := by simpa using hb
    have hlast := endsWith_iff.mp hb'
    have hidx := lastIndexOf_of_getLast hlast
    rw [hi] at hidx
    cases hidx
    rw [hseg, drop_length_sub_one hlast] at h
    simp at h
  rw [hseg] at h
  obtain ⟨j, hj⟩ := lastIndexOf_isSome_of_mem h
  rw [getProperties_isFile h1 hi hj]
  refine ⟨rfl, ?_⟩
  rw [hseg, suffixFromLast_eq_drop hj]

theorem file_extension_classification_witness :
    (getProperties ("/a/b.tar.gz".toList)).isFile = true ∧
    (getProperties ("/a/b.tar.gz".toList)).fileExtension =
      suffixFromLast '.' (suffixFromLast '/' ("/a/b.tar.gz".toList)) :=
  file_extension_classification ("/a/b.tar.gz".toList) (by decide)

/-- Claim C4: every URL that does not end in `/`, contains a `/`, and whose final
path segment contains no `.` is classified `missingSlash = true`, and on it the
handler returns a 301 redirect to the URL with `/` appended, for every asset
store (so no asset fetch takes place). -/
theorem missing_slash_redirect (url : List Char)
    (h1 : endsWith url '/' = false) (h2 : '/' ∈ url)
    (h3 : '.' ∉ suffixFromLast '/' url) :
    (getProperties url).missingSlash = true ∧
    ∀ store : AssetStore, ∀ origin : List Char → List Char,
      handleEvent store origin url = HandlerResult.redirect (url ++ ['/']) 301 := by
  obtain ⟨i, hi⟩ := lastIndexOf_isSome_of_mem h2
  rw [suffixFromLast_eq_drop hi] at h3
  have hdot : lastIndexOf '.' (url.drop i) = none := lastIndexOf_eq_none_iff.mpr h3
  have hprop := getProperties_missingSlash h1 hi hdot
  constructor
  · rw [hprop]
  · intro store origin
    simp [handleEvent, hprop]

theorem missing_slash_redirect_witness :
    (getProperties ("a/b".toList)).missingSlash = true ∧
    handleEvent (fun _ => Except.error ⟨none, "e"⟩) (fun u => u) ("a/b".toList) =
      HandlerResult.redirect ("a/b".toList ++ ['/']) 301 :=
  ⟨(missing_slash_redirect ("a/b".toList) (by decide) (by decide) (by decide)).1,
   (missing_slash_redirect ("a/b".toList) (by decide) (by decide) (by decide)).2
     (fun _ => Except.error ⟨none, "e"⟩) (fun u => u)⟩

/-- Claim C10: every URL containing a `/` is classified `atRoot = false`, and on it
the handler either redirects or proceeds to the asset-fetch path. -/
theorem slash_never_atRoot (url : List Char) (h : '/' ∈ url) :
    (getProperties url).atRoot = false ∧
    ∀ store : AssetStore, ∀ origin : List Char → List Char,
      handleEvent store origin url = HandlerResult.redirect (url ++ ['/']) 301 ∨
      handleEvent store origin url =
        HandlerResult.response (fetchAndRespond store origin url (getProperties url)) := by
  have hroot : (getProperties url).atRoot = false := by
    by_cases h1 : endsWith url '/'
    · rw [getProperties_of_endsWith h1]
    · have h1' : endsWith url '/' = false := by simpa using h1
      obtain ⟨i, hi⟩ := lastIndexOf_isSome_of_mem h
      cases h3 : lastIndexOf '.' (url.drop i) with
      | none => rw [getProperties_missingSlash h1' hi h3]
      | some j => rw [getProperties_isFile h1' hi h3]
  refine ⟨hroot, fun store origin => ?_⟩
  by_cases hms : (getProperties url).missingSlash
  · left
    simp [handleEvent, hms]
  · right
    simp only [handleEvent]
    rw [if_neg (by simpa using hms)]

theorem slash_never_atRoot_witness :
    (getProperties ("https://site/about".toList)).atRoot = false :=
  (slash_never_atRoot ("https://site/about".toList) (by decide)).1

/-- Claim C2: when the primary fetch fails, exactly one fallback fetch of
`/404.html` at the request's origin is attempted; on its success the handler
returns status 404 with the 404 asset's body and exactly its headers (no
security headers or cache policy applied); on its failure the handler returns
status 500 with the primary error's message, or its string form when no
(non-empty) message is present. -/
theorem fallback_404_500 (store : AssetStore) (origin : List Char → List Char)
    (url : List Char) (e : JsError)
    (hms : (getProperties url).missingSlash = false)
    (herr : store url = Except.error e) :
    (∀ nf : Asset, store (notFoundUrl origin url) = Except.ok nf →
      handleEvent store origin url =
        HandlerResult.response { status := 404, headers := nf.headers, body := nf.body }) ∧
    (∀ e2 : JsError, store (notFoundUrl origin url) = Except.error e2 →
      handleEvent store origin url =
        HandlerResult.response { status := 500, headers := [], body := errText e }) := by
  constructor
  · intro nf hnf
    simp [handleEvent, hms, fetchAndRespond, herr, hnf]
  · intro e2 he2
    simp [handleEvent, hms, fetchAndRespond, herr, he2]

theorem fallback_404_500_witness :
    handleEvent
        (fun u => if u = "x/a.css".toList then Except.error ⟨some "m", "t"⟩
          else Except.ok ⟨200, [], "nf"⟩)
        (fun _ => "o".toList) ("x/a.css".toList) =
      HandlerResult.response { status := 404, headers := [], body := "nf" } ∧
    handleEvent (fun _ => Except.error ⟨some "m", "t"⟩)
        (fun _ => "o".toList) ("x/a.css".toList) =
      HandlerResult.response (Resp.mk 500 [] (errText ⟨some "m", "t"⟩)) :=
  ⟨(fallback_404_500
      (fun u => if u = "x/a.css".toList then Except.error ⟨some "m", "t"⟩
        else Except.ok ⟨200, [], "nf"⟩)
      (fun _ => "o".toList) ("x/a.css".toList) ⟨some "m", "t"⟩
      (by decide) (by rfl)).1 ⟨200, [], "nf"⟩ (by rfl),
   (fallback_404_500 (fun _ => Except.error ⟨some "m", "t"⟩)
      (fun _ => "o".toList) ("x/a.css".toList) ⟨some "m", "t"⟩
      (by decide) (by rfl)).2 ⟨some "m", "t"⟩ (by rfl)⟩

/-- Claim C5: every response produced on the success path carries the five fixed
security headers with exactly the specified values. -/
theorem success_security_headers (store : AssetStore) (origin : List Char → List Char)
    (url : List Char) (page : Asset)
    (hms : (getProperties url).missingSlash = false)
    (hok : store url = Except.ok page) :
    ∀ r : Resp, handleEvent store origin url = HandlerResult.response r →
      headersGet r.headers "X-XSS-Protection" = some "1; mode=block" ∧
      headersGet r.headers "X-Content-Type-Options" = some "nosniff" ∧
      headersGet r.headers "X-Frame-Options" = some "DENY" ∧
      headersGet r.headers "Referrer-Policy" = some "unsafe-url" ∧
      headersGet r.headers "Feature-Policy" = some "none" := by
  intro r hr
  have hh : handleEvent store origin url =
      HandlerResult.response (fetchAndRespond store origin url (getProperties url)) := by
    simp [handleEvent, hms]
  rw [hh] at hr
  simp only [HandlerResult.response.injEq] at hr
  subst hr
  simp only [fetchAndRespond, hok]
  by_cases hf : (getProperties url).isFile
  · rw [if_pos hf]
    refine ⟨?_, ?_, ?_, ?_, ?_⟩ <;>
      rw [headersGet_setCachePolicy_other _ _ (by decide), headersGet_setSecurityHeaders] <;>
      simp
  · rw [if_neg hf]
    refine ⟨?_, ?_, ?_, ?_, ?_⟩ <;> rw [headersGet_setSecurityHeaders] <;> simp

theorem success_security_headers_witness :
    headersGet (fetchAndRespond (fun _ => Except.ok ⟨200, [], "b"⟩) (fun u => u)
        ("a/".toList) (getProperties ("a/".toList))).headers
      "X-XSS-Protection" = some "1; mode=block" :=
  (success_security_headers (fun _ => Except.ok ⟨200, [], "b"⟩) (fun u => u)
    ("a/".toList) ⟨200, [], "b"⟩ (by decide) rfl
    (fetchAndRespond (fun _ => Except.ok ⟨200, [], "b"⟩) (fun u => u)
      ("a/".toList) (getProperties ("a/".toList))) (by decide)).1

/-- Claim C6: for every request classified as not a file, or as a file whose
extension lies outside both cache tables, the success-path response's
`Cache-Control` header is exactly that of the fetched asset: this layer adds
none. -/
theorem no_cache_header_outside_tables (store : AssetStore)
    (origin : List Char → List Char) (url : List Char) (page : Asset)
    (hms : (getProperties url).missingSlash = false)
    (hok : store url = Except.ok page)
    (hext : (getProperties url).isFile = false ∨
      ((getProperties url).fileExtension ∉ longTermCache ∧
       (getProperties url).fileExtension ∉ shortTermCache)) :
    ∀ r : Resp, handleEvent store origin url = HandlerResult.response r →
      headersGet r.headers "Cache-Control" = headersGet page.headers "Cache-Control" := by
  intro r hr
  have hh : handleEvent store origin url =
      HandlerResult.response (fetchAndRespond store origin url (getProperties url)) := by
    simp [handleEvent, hms]
  rw [hh] at hr
  simp only [HandlerResult.response.injEq] at hr
  subst hr
  simp only [fetchAndRespond, hok]
  have hsec : headersGet (setSecurityHeaders page.headers) "Cache-Control" =
      headersGet page.headers "Cache-Control" := by
    rw [headersGet_setSecurityHeaders]
    simp
  rcases hext with hf | ⟨hl, hsh⟩
  · rw [if_neg (by simp [hf]), hsec]
  · by_cases hf : (getProperties url).isFile
    · rw [if_pos hf, setCachePolicy_of_not_mem hl hsh, hsec]
    · rw [if_neg hf, hsec]

theorem no_cache_header_outside_tables_witness :
    headersGet (fetchAndRespond (fun _ => Except.ok ⟨200, [], "b"⟩) (fun u => u)
        ("a/b.xyz".toList) (getProperties ("a/b.xyz".toList))).headers
      "Cache-Control" = headersGet ([] : Headers) "Cache-Control" :=
  no_cache_header_outside_tables (fun _ => Except.ok ⟨200, [], "b"⟩) (fun u => u)
    ("a/b.xyz".toList) ⟨200, [], "b"⟩ (by decide) rfl (by decide)
    (fetchAndRespond (fun _ => Except.ok ⟨200, [], "b"⟩) (fun u => u)
      ("a/b.xyz".toList) (getProperties ("a/b.xyz".toList))) (by decide)

/-- Claim C9: the handler is deterministic in the request and the asset store: two
runs on the same URL against extensionally equal stores and origin functions
produce identical results (status, headers and body alike). -/
theorem handler_deterministic (store1 store2 : AssetStore)
    (origin1 origin2 : List Char → List Char) (url1 url2 : List Char)
    (hstore : ∀ r, store1 r = store2 r) (horigin : ∀ u, origin1 u = origin2 u)
    (hurl : url1 = url2) :
    handleEvent store1 origin1 url1 = handleEvent store2 origin2 url2 := by
  have hs : store1 = store2 := funext hstore
  have ho : origin1 = origin2 := funext horigin
  subst hs
  subst ho
  subst hurl
  rfl

theorem handler_deterministic_witness :
    handleEvent (fun _ => Except.error ⟨none, "e"⟩) (fun u => u) ("a/".toList) =
      handleEvent (fun _ => Except.error ⟨none, "e"⟩) (fun u => u) ("a/".toList) :=
  handler_deterministic (fun _ => Except.error ⟨none, "e"⟩)
    (fun _ => Except.error ⟨none, "e"⟩) (fun u => u) (fun u => u)
    ("a/".toList) ("a/".toList) (fun _ => rfl) (fun _ => rfl) rfl

end Workers
